import Mathlib

/-!
Shallow embedding of the fuzzy-membership core of the DiabetesCheck-API
repository (`fuzzy_expert/membership.py` and `fuzzy_expert/fuzzify.py`),
together with a spec-level model of the rule-engine aggregation layer
(whose source, `fuzzy_expert/system.py`, is not part of the shown tree).

Numbers are modelled as rationals. Python exceptions are modelled with
`Except Err`: `ValueError` raised by parameter validation becomes
`Err.valueError msg`, and a Python `ZeroDivisionError` (which `/` would
raise on a zero denominator) becomes `Err.zeroDivisionError`.
-/

/-- Python exception outcomes that the embedded code can raise. -/
inductive Err where
  | valueError (msg : String)
  | zeroDivisionError
  deriving Repr, DecidableEq

deriving instance DecidableEq for Except

/-- Python division: raises `ZeroDivisionError` on a zero denominator. -/
def qdiv (x y : ℚ) : Except Err ℚ :=
  if y = 0 then .error .zeroDivisionError else .ok (x / y)

/-- Embedding of `triangular(inputval, params, kind)` from
`fuzzy_expert/membership.py`. `params = (lowval, midval, highval)`. -/
def triangular (inputval : ℚ) (params : ℚ × ℚ × ℚ) (kind : String) :
    Except Err ℚ :=
  let lowval := params.1
  let midval := params.2.1
  let highval := params.2.2
  if ¬ (lowval ≤ midval ∧ midval ≤ highval) then
    .error (.valueError
      "Triangular parameters must satisfy lowval <= midval <= highval")
  else if kind = "left-shoulder" then
    if inputval ≤ lowval then .ok 1
    else if inputval ≥ highval then .ok 0
    else if inputval ≤ midval then .ok 1
    else qdiv (highval - inputval) (highval - midval)
  else if kind = "right-shoulder" then
    if inputval ≥ highval then .ok 1
    else if inputval ≤ lowval then .ok 0
    else if inputval ≥ midval then .ok 1
    else qdiv (inputval - lowval) (midval - lowval)
  else
    if inputval ≤ lowval ∨ inputval ≥ highval then .ok 0
    else if inputval = midval then .ok 1
    else if lowval < inputval ∧ inputval < midval then
      qdiv (inputval - lowval) (midval - lowval)
    else qdiv (highval - inputval) (highval - midval)

/-- Embedding of `trapezoidal(inputval, params)` from
`fuzzy_expert/membership.py`. `params = (a, b, c, d)`. -/
def trapezoidal (inputval : ℚ) (params : ℚ × ℚ × ℚ × ℚ) : Except Err ℚ :=
  let a := params.1
  let b := params.2.1
  let c := params.2.2.1
  let d := params.2.2.2
  if ¬ (a ≤ b ∧ b ≤ c ∧ c ≤ d) then
    .error (.valueError "Trapezoidal parameters must satisfy a <= b <= c <= d")
  else if inputval < a ∨ inputval > d then .ok 0
  else if a < inputval ∧ inputval < b then
    if a = b then .ok 1 else qdiv (inputval - a) (b - a)
  else if b ≤ inputval ∧ inputval ≤ c then .ok 1
  else if c < inputval ∧ inputval < d then
    if c = d then .ok 1 else qdiv (d - inputval) (d - c)
  else if inputval = a ∧ a = b then .ok 1
  else if inputval = d ∧ c = d then .ok 1
  else .ok 0

example : triangular 1 (0, 1, 2) "normal" = .ok 1 := by decide
example : triangular (1/2) (0, 1, 2) "normal" = .ok (1/2) := by
  simp [triangular, qdiv]
  norm_num
example : triangular 0 (0, 0, 2) "normal" = .ok 0 := by decide
example : triangular 1 (0, 0, 2) "normal" = .ok (1/2) := by
  simp [triangular, qdiv]
  norm_num
example : triangular 1 (0, 1, 1) "left-shoulder" = .ok 0 := by decide
example : triangular 0 (0, 0, 2) "right-shoulder" = .ok 0 := by decide
example : trapezoidal 2 (0, 1, 3, 4) = .ok 1 := by decide
example : trapezoidal (1/2) (0, 1, 3, 4) = .ok (1/2) := by
  simp [trapezoidal, qdiv]
  norm_num
example : trapezoidal 0 (0, 0, 3, 4) = .ok 1 := by decide
example : triangular 0 (1, 0, 2) "normal" =
    .error (.valueError
      "Triangular parameters must satisfy lowval <= midval <= highval") := by
  decide

/-- The shoulder kind `fuzzify_variable` picks for the term at index `i`
out of `n` filtered terms (`fuzzy_expert/fuzzify.py`, lines 29-34):
index 0 is the left shoulder, the last index the right shoulder. -/
def assignKind (i n : Nat) : String :=
  if i = 0 then "left-shoulder"
  else if i = n - 1 then "right-shoulder"
  else "normal"

/-- `term_labels = [t for t in linguistic_terms.keys() if t != "range"]`:
the ordered association list of terms with the "range" entry dropped. -/
def termLabels (linguistic_terms : List (String × List ℚ)) :
    List (String × List ℚ) :=
  linguistic_terms.filter (fun t => t.1 ≠ "range")

/-- The loop body of `fuzzify_variable`: walk the filtered terms carrying
the enumeration index `i`; `n` is the total number of filtered terms.
A 3-tuple is evaluated as triangular with the positional shoulder kind,
a 4-tuple as trapezoidal, anything else raises `ValueError`; any raised
exception aborts the whole call. -/
def fuzzifyTerms (value : ℚ) (n : Nat) :
    Nat → List (String × List ℚ) → Except Err (List (String × ℚ))
  | _, [] => .ok []
  | i, (term, params) :: rest =>
    match params with
    | [low, mid, high] =>
      match triangular value (low, mid, high) (assignKind i n) with
      | .error e => .error e
      | .ok d =>
        match fuzzifyTerms value n (i + 1) rest with
        | .error e => .error e
        | .ok tail => .ok ((term, d) :: tail)
    | [a, b, c, dd] =>
      match trapezoidal value (a, b, c, dd) with
      | .error e => .error e
      | .ok d =>
        match fuzzifyTerms value n (i + 1) rest with
        | .error e => .error e
        | .ok tail => .ok ((term, d) :: tail)
    | _ => .error (.valueError
        "Parameters must be a tuple of length 3 (triangular) or 4 (trapezoidal).")

/-- Embedding of `fuzzify_variable(value, linguistic_terms)` from
`fuzzy_expert/fuzzify.py`. The ordered dict of linguistic terms is an
association list; the result maps each non-"range" term to its degree. -/
def fuzzify_variable (value : ℚ) (linguistic_terms : List (String × List ℚ)) :
    Except Err (List (String × ℚ)) :=
  fuzzifyTerms value (termLabels linguistic_terms).length 0
    (termLabels linguistic_terms)

/-- Insert an element at position `i` of a list (used to state that adding
a "range" entry anywhere leaves fuzzification unchanged). -/
def insertAt (i : Nat) (x : α) : List α → List α
  | [] => [x]
  | y :: ys =>
    match i with
    | 0 => x :: y :: ys
    | j + 1 => y :: insertAt j x ys

/-- Modelled from the spec: a rule of the rule engine (the engine's source,
`fuzzy_expert/system.py`, is not in the shown tree) — an ordered list of
(variable name, term name) antecedent pairs and one consequent output term. -/
structure Rule where
  antecedents : List (String × String)
  consequent : String

/-- Modelled from the spec: a rule's firing strength is the minimum of the
membership degrees of all its antecedent (variable, term) pairs, looked up
in the fuzzified readings (fuzzy AND via minimum). -/
def firingStrength (readings : String → String → ℚ) (r : Rule) : ℚ :=
  (r.antecedents.map (fun p => readings p.1 p.2)).foldr min 1

/-- Modelled from the spec: per output term, the aggregated activation is
the maximum firing strength among all rules whose consequent is that term
(fuzzy OR across rules). -/
def aggregateActivation (readings : String → String → ℚ) (rules : List Rule)
    (t : String) : ℚ :=
  ((rules.filter (fun r => r.consequent = t)).map
    (firingStrength readings)).foldr max 0

example :
    fuzzify_variable 1 [("a", [0, 1, 2]), ("b", [1, 2, 3]), ("c", [2, 3, 4])] =
      .ok [("a", 1), ("b", 0), ("c", 0)] := by
  decide

example :
    fuzzify_variable 1 [("range", [0, 4]), ("a", [0, 1, 2]), ("b", [1, 2, 3]),
        ("c", [2, 3, 4])] =
      .ok [("a", 1), ("b", 0), ("c", 0)] := by
  decide

/-! ### Helper lemmas about `triangular` -/

lemma tri_params_invalid (kind : String) (v low mid high : ℚ)
    (h : ¬ (low ≤ mid ∧ mid ≤ high)) :
    triangular v (low, mid, high) kind =
      .error (.valueError
        "Triangular parameters must satisfy lowval <= midval <= highval") := by
  unfold triangular
  exact if_pos h

/-- Value-level characterization of the `kind = "normal"` branch for valid
parameters: no exception is raised and the degree is given by the code's
case analysis. -/
lemma tri_normal_val (v low mid high : ℚ) (h1 : low ≤ mid) (h2 : mid ≤ high) :
    triangular v (low, mid, high) "normal" =
      .ok (if v ≤ low ∨ v ≥ high then 0
        else if v = mid then 1
        else if low < v ∧ v < mid then (v - low) / (mid - low)
        else (high - v) / (high - mid)) := by
  unfold triangular qdiv
  dsimp only
  rw [if_neg (by push_neg; exact ⟨h1, h2⟩)]
  rw [if_neg (by decide : ¬ ("normal" : String) = "left-shoulder")]
  rw [if_neg (by decide : ¬ ("normal" : String) = "right-shoulder")]
  split_ifs with hA hB hC hD hE
  · rfl
  · rfl
  · exfalso
    obtain ⟨hc1, hc2⟩ := hC
    linarith [sub_eq_zero.mp hD]
  · rfl
  · exfalso
    push_neg at hA hC
    linarith [sub_eq_zero.mp hE, hC hA.1, hA.2]
  · rfl

/-- Value-level characterization of the `kind = "left-shoulder"` branch for
valid parameters. -/
lemma tri_ls_val (v low mid high : ℚ) (h1 : low ≤ mid) (h2 : mid ≤ high) :
    triangular v (low, mid, high) "left-shoulder" =
      .ok (if v ≤ low then 1
        else if v ≥ high then 0
        else if v ≤ mid then 1
        else (high - v) / (high - mid)) := by
  unfold triangular qdiv
  dsimp only
  rw [if_neg (by push_neg; exact ⟨h1, h2⟩)]
  rw [if_pos (rfl : ("left-shoulder" : String) = "left-shoulder")]
  split_ifs with hA hB hC hD
  · rfl
  · rfl
  · rfl
  · exfalso
    push_neg at hB hC
    linarith [sub_eq_zero.mp hD]
  · rfl

/-- Value-level characterization of the `kind = "right-shoulder"` branch for
valid parameters. -/
lemma tri_rs_val (v low mid high : ℚ) (h1 : low ≤ mid) (h2 : mid ≤ high) :
    triangular v (low, mid, high) "right-shoulder" =
      .ok (if v ≥ high then 1
        else if v ≤ low then 0
        else if v ≥ mid then 1
        else (v - low) / (mid - low)) := by
  unfold triangular qdiv
  dsimp only
  rw [if_neg (by push_neg; exact ⟨h1, h2⟩)]
  rw [if_neg (by decide : ¬ ("right-shoulder" : String) = "left-shoulder")]
  rw [if_pos (rfl : ("right-shoulder" : String) = "right-shoulder")]
  split_ifs with hA hB hC hD
  · rfl
  · rfl
  · rfl
  · exfalso
    push_neg at hB hC
    linarith [sub_eq_zero.mp hD]
  · rfl

/-! ### Helper lemmas about `trapezoidal` -/

lemma trap_params_invalid (v a b c d : ℚ) (h : ¬ (a ≤ b ∧ b ≤ c ∧ c ≤ d)) :
    trapezoidal v (a, b, c, d) =
      .error (.valueError
        "Trapezoidal parameters must satisfy a <= b <= c <= d") := by
  unfold trapezoidal
  exact if_pos h

/-- Value-level characterization of `trapezoidal` for valid parameters:
no exception is raised and the degree follows the code's case analysis. -/
lemma trap_val (v a b c d : ℚ) (h1 : a ≤ b) (h2 : b ≤ c) (h3 : c ≤ d) :
    trapezoidal v (a, b, c, d) =
      .ok (if v < a ∨ v > d then 0
        else if a < v ∧ v < b then (if a = b then 1 else (v - a) / (b - a))
        else if b ≤ v ∧ v ≤ c then 1
        else if c < v ∧ v < d then (if c = d then 1 else (d - v) / (d - c))
        else if v = a ∧ a = b then 1
        else if v = d ∧ c = d then 1
        else 0) := by
  unfold trapezoidal qdiv
  dsimp only
  rw [if_neg (by push_neg; exact ⟨h1, h2, h3⟩)]
  split_ifs <;> first
    | rfl
    | (exfalso
       rename_i hrange hne hzero
       obtain ⟨hr1, hr2⟩ := hrange
       exact hne (by linarith [sub_eq_zero.mp hzero]))

lemma trap_range (v a b c d : ℚ) (h1 : a ≤ b) (h2 : b ≤ c) (h3 : c ≤ d) :
    ∃ deg, trapezoidal v (a, b, c, d) = .ok deg ∧ 0 ≤ deg ∧ deg ≤ 1 := by
  rw [trap_val v a b c d h1 h2 h3]
  refine ⟨_, rfl, ?_⟩
  split_ifs with hA hB hab hC hD hcd hE hF
  · norm_num
  · norm_num
  · obtain ⟨hb1, hb2⟩ := hB
    constructor
    · exact div_nonneg (by linarith) (by linarith)
    · rw [div_le_one (by linarith)]
      linarith
  · norm_num
  · norm_num
  · obtain ⟨hd1, hd2⟩ := hD
    constructor
    · exact div_nonneg (by linarith) (by linarith)
    · rw [div_le_one (by linarith)]
      linarith
  · norm_num
  · norm_num
  · norm_num

/-- Any kind other than the two shoulder strings falls through to the
final `else`, i.e. behaves exactly like `kind = "normal"`; the kind string
is never validated. -/
lemma tri_other_kind (kind : String) (hls : kind ≠ "left-shoulder")
    (hrs : kind ≠ "right-shoulder") (v : ℚ) (params : ℚ × ℚ × ℚ) :
    triangular v params kind = triangular v params "normal" := by
  unfold triangular
  dsimp only
  by_cases hval : ¬ (params.1 ≤ params.2.1 ∧ params.2.1 ≤ params.2.2)
  · rw [if_pos hval, if_pos hval]
  · rw [if_neg hval, if_neg hval, if_neg hls, if_neg hrs,
      if_neg (by decide : ¬ ("normal" : String) = "left-shoulder"),
      if_neg (by decide : ¬ ("normal" : String) = "right-shoulder")]

/-- For valid parameters, `triangular` never raises and its degree lies
in `[0, 1]`, whatever the kind string. -/
lemma tri_range (kind : String) (v low mid high : ℚ)
    (h1 : low ≤ mid) (h2 : mid ≤ high) :
    ∃ d, triangular v (low, mid, high) kind = .ok d ∧ 0 ≤ d ∧ d ≤ 1 := by
  by_cases hls : kind = "left-shoulder"
  · subst hls
    rw [tri_ls_val v low mid high h1 h2]
    refine ⟨_, rfl, ?_⟩
    split_ifs with hA hB hC
    · norm_num
    · norm_num
    · norm_num
    · push_neg at hA hB hC
      constructor
      · exact div_nonneg (by linarith) (by linarith)
      · rw [div_le_one (by linarith)]
        linarith
  · by_cases hrs : kind = "right-shoulder"
    · subst hrs
      rw [tri_rs_val v low mid high h1 h2]
      refine ⟨_, rfl, ?_⟩
      split_ifs with hA hB hC
      · norm_num
      · norm_num
      · norm_num
      · push_neg at hA hB hC
        constructor
        · exact div_nonneg (by linarith) (by linarith)
        · rw [div_le_one (by linarith)]
          linarith
    · rw [tri_other_kind kind hls hrs, tri_normal_val v low mid high h1 h2]
      refine ⟨_, rfl, ?_⟩
      split_ifs with hA hB hC
      · norm_num
      · norm_num
      · obtain ⟨hc1, hc2⟩ := hC
        constructor
        · exact div_nonneg (by linarith) (by linarith)
        · rw [div_le_one (by linarith)]
          linarith
      · push_neg at hA hB hC
        have hmv : mid < v := lt_of_le_of_ne (hC hA.1) fun he => hB he.symm
        constructor
        · exact div_nonneg (by linarith [hA.2]) (by linarith [hA.2])
        · rw [div_le_one (by linarith [hA.2])]
          linarith [hA.1]

/-- `triangular` either returns a degree or raises the parameter
`ValueError`; a `ZeroDivisionError` is unreachable. -/
lemma tri_ok_or_valueError (kind : String) (v low mid high : ℚ) :
    (∃ d, triangular v (low, mid, high) kind = .ok d) ∨
    (∃ msg, triangular v (low, mid, high) kind =
      .error (.valueError msg)) := by
  by_cases h : low ≤ mid ∧ mid ≤ high
  · obtain ⟨d, hd, -⟩ := tri_range kind v low mid high h.1 h.2
    exact .inl ⟨d, hd⟩
  · exact .inr ⟨_, tri_params_invalid kind v low mid high h⟩

/-- `trapezoidal` either returns a degree or raises the parameter
`ValueError`; a `ZeroDivisionError` is unreachable. -/
lemma trap_ok_or_valueError (v a b c d : ℚ) :
    (∃ deg, trapezoidal v (a, b, c, d) = .ok deg) ∨
    (∃ msg, trapezoidal v (a, b, c, d) = .error (.valueError msg)) := by
  by_cases h : a ≤ b ∧ b ≤ c ∧ c ≤ d
  · obtain ⟨deg, hd, -⟩ := trap_range v a b c d h.1 h.2.1 h.2.2
    exact .inl ⟨deg, hd⟩
  · exact .inr ⟨_, trap_params_invalid v a b c d h⟩

/-! ### Branch evaluation lemmas for the normal triangular case -/

lemma tri_normal_eval_zero (v low mid high : ℚ) (h1 : low ≤ mid)
    (h2 : mid ≤ high) (hv : v ≤ low ∨ v ≥ high) :
    triangular v (low, mid, high) "normal" = .ok 0 := by
  rw [tri_normal_val v low mid high h1 h2, if_pos hv]

lemma tri_normal_eval_mid (low mid high : ℚ) (hl : low < mid)
    (hh : mid < high) :
    triangular mid (low, mid, high) "normal" = .ok 1 := by
  rw [tri_normal_val mid low mid high hl.le hh.le,
    if_neg (by push_neg; exact ⟨hl, hh⟩), if_pos rfl]

lemma tri_normal_eval_up (v low mid high : ℚ) (h2 : mid ≤ high)
    (hl : low < v) (hv : v < mid) :
    triangular v (low, mid, high) "normal" =
      .ok ((v - low) / (mid - low)) := by
  rw [tri_normal_val v low mid high (lt_trans hl hv).le h2,
    if_neg (by push_neg; exact ⟨hl, by linarith⟩),
    if_neg (by exact fun he => absurd he (ne_of_lt hv)),
    if_pos ⟨hl, hv⟩]

lemma tri_normal_eval_down (v low mid high : ℚ) (h1 : low ≤ mid)
    (hm : mid < v) (hv : v < high) :
    triangular v (low, mid, high) "normal" =
      .ok ((high - v) / (high - mid)) := by
  rw [tri_normal_val v low mid high h1 (lt_trans hm hv).le,
    if_neg (by push_neg; exact ⟨by linarith, hv⟩),
    if_neg (by exact fun he => absurd he (ne_of_gt hm)),
    if_neg (by exact fun hc => absurd hc.2 (not_lt.mpr hm.le))]

/-! ### Claim theorems -/

/-- C5: for every valid parameter tuple and every input value, membership
evaluation is total (no exception, in particular no division by zero is
reached) and the returned degree lies in [0, 1] — for `triangular` with
any kind string and for `trapezoidal`. -/
theorem C5_membership_total_unit_range :
    (∀ (kind : String) (v low mid high : ℚ), low ≤ mid → mid ≤ high →
      ∃ d, triangular v (low, mid, high) kind = .ok d ∧ 0 ≤ d ∧ d ≤ 1) ∧
    (∀ v a b c d : ℚ, a ≤ b → b ≤ c → c ≤ d →
      ∃ deg, trapezoidal v (a, b, c, d) = .ok deg ∧ 0 ≤ deg ∧ deg ≤ 1) :=
  ⟨fun kind v low mid high h1 h2 => tri_range kind v low mid high h1 h2,
   fun v a b c d h1 h2 h3 => trap_range v a b c d h1 h2 h3⟩

/-- Witness for C5 at concrete inputs. -/
theorem C5_witness :
    (∃ d, triangular 5 (0, 1, 2) "normal" = .ok d ∧ 0 ≤ d ∧ d ≤ 1) ∧
    (∃ deg, trapezoidal 2 (0, 1, 3, 4) = .ok deg ∧ 0 ≤ deg ∧ deg ≤ 1) :=
  ⟨C5_membership_total_unit_range.1 "normal" 5 0 1 2 (by norm_num)
      (by norm_num),
   C5_membership_total_unit_range.2 2 0 1 3 4 (by norm_num) (by norm_num)
      (by norm_num)⟩

/-- C10: any kind string other than "left-shoulder" and "right-shoulder"
(misspellings included) is evaluated as the normal triangular case; the
kind argument is never validated, and with valid parameters a degree is
returned rather than an error. -/
theorem C10_unknown_kind_is_normal :
    ∀ kind : String, kind ≠ "left-shoulder" → kind ≠ "right-shoulder" →
      ∀ (v : ℚ) (params : ℚ × ℚ × ℚ),
        triangular v params kind = triangular v params "normal" ∧
        (params.1 ≤ params.2.1 → params.2.1 ≤ params.2.2 →
          ∃ d, triangular v params kind = .ok d) := by
  intro kind hls hrs v params
  refine ⟨tri_other_kind kind hls hrs v params, fun h1 h2 => ?_⟩
  obtain ⟨d, hd, -⟩ := tri_range kind v params.1 params.2.1 params.2.2 h1 h2
  exact ⟨d, hd⟩

/-- Witness for C10 with a misspelled kind string. -/
theorem C10_witness :
    triangular 1 (0, 1, 2) "nromal" = triangular 1 (0, 1, 2) "normal" ∧
    ((0 : ℚ) ≤ 1 → (1 : ℚ) ≤ 2 →
      ∃ d, triangular 1 (0, 1, 2) "nromal" = .ok d) :=
  C10_unknown_kind_is_normal "nromal" (by decide) (by decide) 1 (0, 1, 2)

/-- C4: for a ≤ b ≤ c ≤ d, `trapezoidal` returns 0 strictly outside
[a, d], 1 on the plateau [b, c], the linear ramps on (a, b) and (c, d),
and at a degenerate edge (a = b or c = d) the edge point resolves to 1. -/
theorem C4_trapezoidal_shape :
    ∀ (v a b c d : ℚ), a ≤ b → b ≤ c → c ≤ d →
      (v < a → trapezoidal v (a, b, c, d) = .ok 0) ∧
      (v > d → trapezoidal v (a, b, c, d) = .ok 0) ∧
      (b ≤ v → v ≤ c → trapezoidal v (a, b, c, d) = .ok 1) ∧
      (a < v → v < b → trapezoidal v (a, b, c, d) =
        .ok ((v - a) / (b - a))) ∧
      (c < v → v < d → trapezoidal v (a, b, c, d) =
        .ok ((d - v) / (d - c))) ∧
      (a = b → trapezoidal a (a, b, c, d) = .ok 1) ∧
      (c = d → trapezoidal d (a, b, c, d) = .ok 1) := by
  intro v a b c d h1 h2 h3
  refine ⟨?_, ?_, ?_, ?_, ?_, ?_, ?_⟩
  · intro hv
    rw [trap_val v a b c d h1 h2 h3, if_pos (Or.inl hv)]
  · intro hv
    rw [trap_val v a b c d h1 h2 h3, if_pos (Or.inr hv)]
  · intro hb hc
    rw [trap_val v a b c d h1 h2 h3,
      if_neg (by push_neg; exact ⟨by linarith, by linarith⟩),
      if_neg (by exact fun hx => absurd hx.2 (not_lt.mpr hb)),
      if_pos ⟨hb, hc⟩]
  · intro ha hb
    rw [trap_val v a b c d h1 h2 h3,
      if_neg (by push_neg; exact ⟨by linarith, by linarith⟩),
      if_pos ⟨ha, hb⟩, if_neg (by exact ne_of_lt (lt_trans ha hb))]
  · intro hc hd
    rw [trap_val v a b c d h1 h2 h3,
      if_neg (by push_neg; exact ⟨by linarith, by linarith⟩),
      if_neg (by exact fun hx => absurd hx.2 (by linarith)),
      if_neg (by exact fun hx => absurd hx.2 (not_le.mpr hc)),
      if_pos ⟨hc, hd⟩, if_neg (by exact ne_of_lt (lt_trans hc hd))]
  · intro hab
    rw [trap_val a a b c d h1 h2 h3,
      if_neg (by push_neg; exact ⟨le_refl a, by linarith⟩),
      if_neg (by exact fun hx => absurd hx.1 (lt_irrefl a)),
      if_pos ⟨hab ▸ le_refl a, by linarith⟩]
  · intro hcd
    rw [trap_val d a b c d h1 h2 h3,
      if_neg (by push_neg; exact ⟨by linarith, le_refl d⟩),
      if_neg (by exact fun hx => absurd hx.2 (by linarith)),
      if_pos ⟨by linarith, hcd ▸ le_refl d⟩]

/-- Witness for C4 at concrete inputs, including a degenerate edge. -/
theorem C4_witness :
    (trapezoidal 2 (0, 1, 3, 4) = .ok 1) ∧
    (trapezoidal 0 (0, 0, 3, 4) = .ok 1) := by
  constructor
  · exact (C4_trapezoidal_shape 2 0 1 3 4 (by norm_num) (by norm_num)
      (by norm_num)).2.2.1 (by norm_num) (by norm_num)
  · exact (C4_trapezoidal_shape 0 0 0 3 4 (by norm_num) (by norm_num)
      (by norm_num)).2.2.2.2.2.1 rfl

/-- C2 counterexample: with the degenerate triple (0, 1, 1) — so
low ≤ mid ≤ high — the claim demands membership 1 at value 1 (since
1 ≤ mid), but the code's `value >= high` test fires first and returns 0. -/
theorem C2_counterexample :
    (0 : ℚ) ≤ 1 ∧ (1 : ℚ) ≤ 1 ∧ (1 : ℚ) ≤ 1 ∧
    triangular 1 (0, 1, 1) "left-shoulder" = .ok 0 ∧
    triangular 1 (0, 1, 1) "left-shoulder" ≠ .ok 1 := by
  refine ⟨by norm_num, by norm_num, by norm_num, by decide, by decide⟩

/-- C2 (amended): for low ≤ mid < high (mid strictly below high, which
excludes the degenerate zero-width ramp), left-shoulder membership is 1
for every value ≤ mid, 0 for every value ≥ high, and the linear ramp
(high - value)/(high - mid) strictly between mid and high. -/
theorem C2_amended_left_shoulder :
    ∀ (low mid high : ℚ), low ≤ mid → mid < high →
      (∀ v : ℚ, v ≤ mid →
        triangular v (low, mid, high) "left-shoulder" = .ok 1) ∧
      (∀ v : ℚ, v ≥ high →
        triangular v (low, mid, high) "left-shoulder" = .ok 0) ∧
      (∀ v : ℚ, mid < v → v < high →
        triangular v (low, mid, high) "left-shoulder" =
          .ok ((high - v) / (high - mid))) := by
  intro low mid high h1 h2
  refine ⟨?_, ?_, ?_⟩
  · intro v hv
    rw [tri_ls_val v low mid high h1 h2.le]
    by_cases hlow : v ≤ low
    · rw [if_pos hlow]
    · rw [if_neg hlow, if_neg (by exact not_le.mpr (by linarith)),
        if_pos hv]
  · intro v hv
    rw [tri_ls_val v low mid high h1 h2.le,
      if_neg (by exact not_le.mpr (by linarith)), if_pos hv]
  · intro v hm hh
    rw [tri_ls_val v low mid high h1 h2.le,
      if_neg (by exact not_le.mpr (by linarith)),
      if_neg (by exact not_le.mpr hh), if_neg (by exact not_le.mpr hm)]

/-- Witness for C2 (amended) at concrete inputs. -/
theorem C2_amended_witness :
    triangular 1 (0, 1, 2) "left-shoulder" = .ok 1 ∧
    triangular 2 (0, 1, 2) "left-shoulder" = .ok 0 := by
  constructor
  · exact (C2_amended_left_shoulder 0 1 2 (by norm_num) (by norm_num)).1 1
      (by norm_num)
  · exact (C2_amended_left_shoulder 0 1 2 (by norm_num)
      (by norm_num)).2.1 2 (by norm_num)

/-- C3 counterexample: with the degenerate triple (0, 0, 2) the claim
demands membership 1 at value 0 (since 0 ≥ mid), but the code's
`value <= low` test fires before the `value >= mid` test and returns 0. -/
theorem C3_counterexample :
    (0 : ℚ) ≤ 0 ∧ (0 : ℚ) ≤ 2 ∧ (0 : ℚ) ≥ 0 ∧
    triangular 0 (0, 0, 2) "right-shoulder" = .ok 0 ∧
    triangular 0 (0, 0, 2) "right-shoulder" ≠ .ok 1 := by
  refine ⟨by norm_num, by norm_num, by norm_num, by decide, by decide⟩

/-- C3 (amended): for low < mid ≤ high (low strictly below mid, which
excludes the degenerate zero-width ramp), right-shoulder membership is 1
for every value ≥ mid, 0 at or below low, and the linear ramp
(value - low)/(mid - low) strictly between low and mid. -/
theorem C3_amended_right_shoulder :
    ∀ (low mid high : ℚ), low < mid → mid ≤ high →
      (∀ v : ℚ, v ≥ mid →
        triangular v (low, mid, high) "right-shoulder" = .ok 1) ∧
      (∀ v : ℚ, v ≤ low →
        triangular v (low, mid, high) "right-shoulder" = .ok 0) ∧
      (∀ v : ℚ, low < v → v < mid →
        triangular v (low, mid, high) "right-shoulder" =
          .ok ((v - low) / (mid - low))) := by
  intro low mid high h1 h2
  refine ⟨?_, ?_, ?_⟩
  · intro v hv
    rw [tri_rs_val v low mid high h1.le h2]
    by_cases hhigh : v ≥ high
    · rw [if_pos hhigh]
    · rw [if_neg hhigh, if_neg (by exact not_le.mpr (by linarith)),
        if_pos hv]
  · intro v hv
    rw [tri_rs_val v low mid high h1.le h2,
      if_neg (by exact not_le.mpr (by linarith)), if_pos hv]
  · intro v hl hm
    rw [tri_rs_val v low mid high h1.le h2,
      if_neg (by exact not_le.mpr (by linarith)),
      if_neg (by exact not_le.mpr hl), if_neg (by exact not_le.mpr hm)]

/-- Witness for C3 (amended) at concrete inputs. -/
theorem C3_amended_witness :
    triangular 1 (0, 1, 2) "right-shoulder" = .ok 1 ∧
    triangular 0 (0, 1, 2) "right-shoulder" = .ok 0 := by
  constructor
  · exact (C3_amended_right_shoulder 0 1 2 (by norm_num) (by norm_num)).1 1
      (by norm_num)
  · exact (C3_amended_right_shoulder 0 1 2 (by norm_num)
      (by norm_num)).2.1 0 (by norm_num)

/-- C1 counterexample: with the degenerate triple (0, 0, 2) — so
low ≤ mid ≤ high — the claim's monotone non-increase on [mid, high] fails:
membership at mid (= 0) is 0 yet membership at 1 ∈ [mid, high] is 1/2. -/
theorem C1_counterexample :
    (0 : ℚ) ≤ 0 ∧ (0 : ℚ) ≤ 2 ∧
    (0 : ℚ) ≤ 0 ∧ (0 : ℚ) ≤ 1 ∧ (1 : ℚ) ≤ 2 ∧
    triangular 0 (0, 0, 2) "normal" = .ok 0 ∧
    triangular 1 (0, 0, 2) "normal" = .ok (1 / 2) ∧
    ¬ ((1 : ℚ) / 2 ≤ 0) := by
  refine ⟨by norm_num, by norm_num, by norm_num, by norm_num, by norm_num,
    by decide, ?_, by norm_num⟩
  simp [triangular, qdiv]
  norm_num

/-- C1 (amended): for low ≤ mid ≤ high, normal triangular membership is 0
whenever value ≤ low or value ≥ high (degenerate triples included); and
when low < mid < high it is 1 exactly at mid (strictly below 1 elsewhere),
monotonically non-decreasing on [low, mid] and non-increasing on
[mid, high]. (The monotonicity claims require the strict inequalities:
with a zero-width ramp, membership jumps at the degenerate endpoint.) -/
theorem C1_amended_normal_triangular :
    ∀ (low mid high : ℚ), low ≤ mid → mid ≤ high →
      (∀ v : ℚ, v ≤ low ∨ v ≥ high →
        triangular v (low, mid, high) "normal" = .ok 0) ∧
      (low < mid → mid < high →
        triangular mid (low, mid, high) "normal" = .ok 1 ∧
        (∀ v d : ℚ, triangular v (low, mid, high) "normal" = .ok d →
          v ≠ mid → d < 1) ∧
        (∀ v₁ v₂ d₁ d₂ : ℚ, low ≤ v₁ → v₁ ≤ v₂ → v₂ ≤ mid →
          triangular v₁ (low, mid, high) "normal" = .ok d₁ →
          triangular v₂ (low, mid, high) "normal" = .ok d₂ → d₁ ≤ d₂) ∧
        (∀ v₁ v₂ d₁ d₂ : ℚ, mid ≤ v₁ → v₁ ≤ v₂ → v₂ ≤ high →
          triangular v₁ (low, mid, high) "normal" = .ok d₁ →
          triangular v₂ (low, mid, high) "normal" = .ok d₂ → d₂ ≤ d₁)) := by
  intro low mid high h1 h2
  constructor
  · intro v hv
    exact tri_normal_eval_zero v low mid high h1 h2 hv
  intro hlm hmh
  refine ⟨tri_normal_eval_mid low mid high hlm hmh, ?_, ?_, ?_⟩
  · -- strictly below 1 away from mid
    intro v d hd hne
    rw [tri_normal_val v low mid high h1 h2] at hd
    have hd' := Except.ok.inj hd
    subst hd'
    split_ifs with hA hB
    · norm_num
    · rw [div_lt_one (by linarith [hB.1, hB.2])]
      linarith [hB.2]
    · push_neg at hA hB
      have hmv : mid < v := lt_of_le_of_ne (hB hA.1) fun he => hne he.symm
      rw [div_lt_one (by linarith)]
      linarith
  · -- non-decreasing on [low, mid]
    intro v₁ v₂ d₁ d₂ hl hv hm e₁ e₂
    rcases le_or_lt v₁ low with hA | hA
    · have h0 := tri_normal_eval_zero v₁ low mid high h1 h2 (Or.inl hA)
      rw [e₁] at h0
      obtain ⟨d', eq', hb0, hb1⟩ := tri_range "normal" v₂ low mid high h1 h2
      rw [e₂] at eq'
      rw [Except.ok.inj h0, Except.ok.inj eq']
      exact hb0
    · rcases eq_or_lt_of_le hm with hB | hB
      · have h1e := tri_normal_eval_mid low mid high hlm hmh
        rw [hB] at e₂
        rw [e₂] at h1e
        obtain ⟨d', eq', hb0, hb1⟩ := tri_range "normal" v₁ low mid high h1 h2
        rw [e₁] at eq'
        rw [Except.ok.inj h1e, Except.ok.inj eq']
        exact hb1
      · have hv₁ : v₁ < mid := lt_of_le_of_lt hv hB
        have hl₂ : low < v₂ := lt_of_lt_of_le hA hv
        have u₁ := tri_normal_eval_up v₁ low mid high h2 hA hv₁
        have u₂ := tri_normal_eval_up v₂ low mid high h2 hl₂ hB
        rw [e₁] at u₁
        rw [e₂] at u₂
        rw [Except.ok.inj u₁, Except.ok.inj u₂,
          div_le_div_iff_of_pos_right (by linarith : (0 : ℚ) < mid - low)]
        linarith
  · -- non-increasing on [mid, high]
    intro v₁ v₂ d₁ d₂ hm hv hh e₁ e₂
    rcases le_or_lt high v₂ with hA | hA
    · have h0 := tri_normal_eval_zero v₂ low mid high h1 h2 (Or.inr hA)
      rw [e₂] at h0
      obtain ⟨d', eq', hb0, hb1⟩ := tri_range "normal" v₁ low mid high h1 h2
      rw [e₁] at eq'
      rw [Except.ok.inj h0, Except.ok.inj eq']
      exact hb0
    · rcases eq_or_lt_of_le hm with hB | hB
      · have h1e := tri_normal_eval_mid low mid high hlm hmh
        rw [← hB] at e₁
        rw [e₁] at h1e
        obtain ⟨d', eq', hb0, hb1⟩ := tri_range "normal" v₂ low mid high h1 h2
        rw [e₂] at eq'
        rw [Except.ok.inj h1e, Except.ok.inj eq']
        exact hb1
      · have hv₂ : mid < v₂ := lt_of_lt_of_le hB hv
        have hh₁ : v₁ < high := lt_of_le_of_lt hv hA
        have u₁ := tri_normal_eval_down v₁ low mid high h1 hB hh₁
        have u₂ := tri_normal_eval_down v₂ low mid high h1 hv₂ hA
        rw [e₁] at u₁
        rw [e₂] at u₂
        rw [Except.ok.inj u₁, Except.ok.inj u₂,
          div_le_div_iff_of_pos_right (by linarith : (0 : ℚ) < high - mid)]
        linarith

/-- Witness for C1 (amended) at concrete inputs. -/
theorem C1_amended_witness :
    triangular 3 (0, 1, 2) "normal" = .ok 0 ∧
    triangular 1 (0, 1, 2) "normal" = .ok 1 := by
  constructor
  · exact (C1_amended_normal_triangular 0 1 2 (by norm_num)
      (by norm_num)).1 3 (Or.inr (by norm_num))
  · exact ((C1_amended_normal_triangular 0 1 2 (by norm_num)
      (by norm_num)).2 (by norm_num) (by norm_num)).1

/-! ### Structure lemmas about `fuzzifyTerms` -/

/-- When the loop succeeds, the output pairs each filtered term name, in
order, with the degree computed by the positionally-assigned membership
function. -/
lemma fuzzifyTerms_ok_spec (value : ℚ) (n : Nat) :
    ∀ (l : List (String × List ℚ)) (i : Nat) (out : List (String × ℚ)),
      fuzzifyTerms value n i l = .ok out →
      out.length = l.length ∧
      ∀ (j : Nat) (name : String) (ps : List ℚ), l[j]? = some (name, ps) →
        (ps.length = 3 ∨ ps.length = 4) ∧
        (ps.length = 3 → ∃ low mid high d, ps = [low, mid, high] ∧
          triangular value (low, mid, high) (assignKind (i + j) n) = .ok d ∧
          out[j]? = some (name, d)) ∧
        (ps.length = 4 → ∃ a b c dd d, ps = [a, b, c, dd] ∧
          trapezoidal value (a, b, c, dd) = .ok d ∧
          out[j]? = some (name, d)) := by
  intro l
  induction l with
  | nil =>
    intro i out hok
    simp only [fuzzifyTerms] at hok
    cases hok
    refine ⟨rfl, ?_⟩
    intro j name ps hj
    simp [List.getElem?_nil] at hj
  | cons hd tl ih =>
    intro i out hok
    obtain ⟨term, params⟩ := hd
    rcases params with _ | ⟨x1, _ | ⟨x2, _ | ⟨x3, _ | ⟨x4, _ | ⟨x5, r5⟩⟩⟩⟩⟩
    · simp only [fuzzifyTerms] at hok
      exact Except.noConfusion hok
    · simp only [fuzzifyTerms] at hok
      exact Except.noConfusion hok
    · simp only [fuzzifyTerms] at hok
      exact Except.noConfusion hok
    · -- triangular term
      simp only [fuzzifyTerms] at hok
      cases htri : triangular value (x1, x2, x3) (assignKind i n) with
      | error e => rw [htri] at hok; simp at hok
      | ok d =>
        rw [htri] at hok
        cases htail : fuzzifyTerms value n (i + 1) tl with
        | error e => rw [htail] at hok; simp at hok
        | ok tail =>
          rw [htail] at hok
          simp only at hok
          cases hok
          obtain ⟨hlen, hspec⟩ := ih (i + 1) tail htail
          refine ⟨by simp [hlen], ?_⟩
          intro j name ps hj
          cases j with
          | zero =>
            rw [List.getElem?_cons_zero] at hj
            injection hj with hj
            cases hj
            refine ⟨Or.inl (by simp), ?_, ?_⟩
            · intro _
              refine ⟨x1, x2, x3, d, rfl, ?_, by
                rw [List.getElem?_cons_zero]⟩
              rw [Nat.add_zero]
              exact htri
            · intro h4
              simp at h4
          | succ k =>
            rw [List.getElem?_cons_succ] at hj
            have hk := hspec k name ps hj
            have hidx : i + 1 + k = i + (k + 1) := by omega
            rw [hidx] at hk
            simpa [List.getElem?_cons_succ] using hk
    · -- trapezoidal term
      simp only [fuzzifyTerms] at hok
      cases htrap : trapezoidal value (x1, x2, x3, x4) with
      | error e => rw [htrap] at hok; simp at hok
      | ok d =>
        rw [htrap] at hok
        cases htail : fuzzifyTerms value n (i + 1) tl with
        | error e => rw [htail] at hok; simp at hok
        | ok tail =>
          rw [htail] at hok
          simp only at hok
          cases hok
          obtain ⟨hlen, hspec⟩ := ih (i + 1) tail htail
          refine ⟨by simp [hlen], ?_⟩
          intro j name ps hj
          cases j with
          | zero =>
            rw [List.getElem?_cons_zero] at hj
            injection hj with hj
            cases hj
            refine ⟨Or.inr (by simp), ?_, ?_⟩
            · intro h3
              simp at h3
            · intro _
              exact ⟨x1, x2, x3, x4, d, rfl, htrap, by
                rw [List.getElem?_cons_zero]⟩
          | succ k =>
            rw [List.getElem?_cons_succ] at hj
            have hk := hspec k name ps hj
            have hidx : i + 1 + k = i + (k + 1) := by omega
            rw [hidx] at hk
            simpa [List.getElem?_cons_succ] using hk
    · simp only [fuzzifyTerms] at hok
      exact Except.noConfusion hok

/-- If any filtered term has a parameter tuple of length other than 3 or
4, the loop raises a `ValueError` (either the bad-length one or an earlier
parameter-validation one). -/
lemma fuzzifyTerms_badlen_error (value : ℚ) (n : Nat) :
    ∀ (l : List (String × List ℚ)) (i : Nat),
      (∃ p ∈ l, p.2.length ≠ 3 ∧ p.2.length ≠ 4) →
      ∃ msg, fuzzifyTerms value n i l = .error (.valueError msg) := by
  intro l
  induction l with
  | nil =>
    intro i ⟨p, hp, _⟩
    simp at hp
  | cons hd tl ih =>
    intro i ⟨p, hp, hlen⟩
    obtain ⟨term, params⟩ := hd
    rcases List.mem_cons.mp hp with hphd | hptl
    · -- the offending term is the head
      subst hphd
      rcases params with _ | ⟨x1, _ | ⟨x2, _ | ⟨x3, _ | ⟨x4, _ | ⟨x5, r5⟩⟩⟩⟩⟩
      · exact ⟨_, rfl⟩
      · exact ⟨_, rfl⟩
      · exact ⟨_, rfl⟩
      · exact absurd rfl hlen.1
      · exact absurd rfl hlen.2
      · exact ⟨_, rfl⟩
    · -- the offending term is further down the list
      rcases params with _ | ⟨x1, _ | ⟨x2, _ | ⟨x3, _ | ⟨x4, _ | ⟨x5, r5⟩⟩⟩⟩⟩
      · exact ⟨_, rfl⟩
      · exact ⟨_, rfl⟩
      · exact ⟨_, rfl⟩
      · rcases tri_ok_or_valueError (assignKind i n) value x1 x2 x3 with
          ⟨d, hd'⟩ | ⟨msg, hmsg⟩
        · obtain ⟨msg, htl⟩ := ih (i + 1) ⟨p, hptl, hlen⟩
          refine ⟨msg, ?_⟩
          simp only [fuzzifyTerms]
          rw [hd']
          dsimp only
          rw [htl]
        · refine ⟨msg, ?_⟩
          simp only [fuzzifyTerms]
          rw [hmsg]
      · rcases trap_ok_or_valueError value x1 x2 x3 x4 with
          ⟨d, hd'⟩ | ⟨msg, hmsg⟩
        · obtain ⟨msg, htl⟩ := ih (i + 1) ⟨p, hptl, hlen⟩
          refine ⟨msg, ?_⟩
          simp only [fuzzifyTerms]
          rw [hd']
          dsimp only
          rw [htl]
        · refine ⟨msg, ?_⟩
          simp only [fuzzifyTerms]
          rw [hmsg]
      · exact ⟨_, rfl⟩

/-- Filtering is unchanged by inserting the dropped "range" key anywhere. -/
lemma termLabels_insertAt (ps : List ℚ) :
    ∀ (l : List (String × List ℚ)) (i : Nat),
      termLabels (insertAt i ("range", ps) l) = termLabels l := by
  intro l
  induction l with
  | nil =>
    intro i
    simp [insertAt, termLabels]
  | cons y ys ih =>
    intro i
    cases i with
    | zero =>
      simp only [insertAt, termLabels, List.filter_cons]
      norm_num
    | succ j =>
      simp only [insertAt, termLabels, List.filter_cons]
      have := ih j
      simp only [termLabels] at this
      rw [this]

/-- C6: whenever `fuzzify_variable` succeeds, each filtered term with a
3-tuple was evaluated as triangular with the positional kind (index 0 →
left-shoulder, last index → right-shoulder, otherwise normal — regardless
of the numeric values), each 4-tuple as trapezoidal, and with exactly 3
terms the assigned kinds at positions 0, 1, 2 are left-shoulder, normal,
right-shoulder. -/
theorem C6_positional_shoulder_assignment :
    ∀ (value : ℚ) (ts : List (String × List ℚ)) (out : List (String × ℚ)),
      fuzzify_variable value ts = .ok out →
      out.length = (termLabels ts).length ∧
      (∀ (j : Nat) (name : String) (ps : List ℚ),
        (termLabels ts)[j]? = some (name, ps) →
        (ps.length = 3 → ∃ low mid high d, ps = [low, mid, high] ∧
          triangular value (low, mid, high)
            (assignKind j (termLabels ts).length) = .ok d ∧
          out[j]? = some (name, d)) ∧
        (ps.length = 4 → ∃ a b c dd d, ps = [a, b, c, dd] ∧
          trapezoidal value (a, b, c, dd) = .ok d ∧
          out[j]? = some (name, d))) ∧
      assignKind 0 3 = "left-shoulder" ∧
      assignKind 1 3 = "normal" ∧
      assignKind 2 3 = "right-shoulder" := by
  intro value ts out hok
  obtain ⟨hlen, hspec⟩ := fuzzifyTerms_ok_spec value (termLabels ts).length
    (termLabels ts) 0 out hok
  refine ⟨hlen, ?_, rfl, rfl, rfl⟩
  intro j name ps hj
  have h := hspec j name ps hj
  rw [Nat.zero_add] at h
  exact ⟨h.2.1, h.2.2⟩

/-- Witness for C6: a concrete three-term variable, with the hypothesis
discharged by computation. -/
theorem C6_witness :
    assignKind 0 3 = "left-shoulder" ∧ assignKind 1 3 = "normal" ∧
    assignKind 2 3 = "right-shoulder" :=
  (C6_positional_shoulder_assignment 1
    [("a", [0, 1, 2]), ("b", [1, 2, 3]), ("c", [2, 3, 4])]
    [("a", 1), ("b", 0), ("c", 0)] (by decide)).2.2

/-- C8: malformed configuration raises the validation error (modelled as
the `ValueError` the code raises, the spec's `ConfigurationError`): a
non-monotonic triple for `triangular`, a non-monotonic quadruple for
`trapezoidal`, and a filtered term of tuple length other than 3 or 4 for
`fuzzify_variable`; no degree is returned in these cases. -/
theorem C8_validation_raises :
    (∀ (kind : String) (v low mid high : ℚ), ¬ (low ≤ mid ∧ mid ≤ high) →
      triangular v (low, mid, high) kind =
        .error (.valueError
          "Triangular parameters must satisfy lowval <= midval <= highval")) ∧
    (∀ v a b c d : ℚ, ¬ (a ≤ b ∧ b ≤ c ∧ c ≤ d) →
      trapezoidal v (a, b, c, d) =
        .error (.valueError
          "Trapezoidal parameters must satisfy a <= b <= c <= d")) ∧
    (∀ (value : ℚ) (ts : List (String × List ℚ)) (p : String × List ℚ),
      p ∈ termLabels ts → p.2.length ≠ 3 → p.2.length ≠ 4 →
      ∃ msg, fuzzify_variable value ts = .error (.valueError msg)) :=
  ⟨fun kind v low mid high h => tri_params_invalid kind v low mid high h,
   fun v a b c d h => trap_params_invalid v a b c d h,
   fun value ts p hp h3 h4 =>
     fuzzifyTerms_badlen_error value (termLabels ts).length (termLabels ts)
       0 ⟨p, hp, h3, h4⟩⟩

/-- Witness for C8 at concrete malformed inputs. -/
theorem C8_witness :
    triangular 0 (1, 0, 2) "normal" =
      .error (.valueError
        "Triangular parameters must satisfy lowval <= midval <= highval") ∧
    trapezoidal 0 (1, 0, 2, 3) =
      .error (.valueError
        "Trapezoidal parameters must satisfy a <= b <= c <= d") ∧
    ∃ msg, fuzzify_variable 1 [("a", [1, 2])] =
      .error (.valueError msg) :=
  ⟨C8_validation_raises.1 "normal" 0 1 0 2 (by norm_num),
   C8_validation_raises.2.1 0 1 0 2 3 (by norm_num),
   C8_validation_raises.2.2 1 [("a", [1, 2])] ("a", [1, 2]) (by decide)
     (by decide) (by decide)⟩

/-- C9: the "range" entry is excluded up front: a successful result never
contains a "range" key, the result depends only on the filtered terms, and
inserting a "range" entry at any position changes nothing. -/
theorem C9_range_key_excluded :
    ∀ (value : ℚ) (ts : List (String × List ℚ)),
      (∀ out, fuzzify_variable value ts = .ok out →
        ∀ p ∈ out, p.1 ≠ "range") ∧
      (∀ ts₂, termLabels ts = termLabels ts₂ →
        fuzzify_variable value ts = fuzzify_variable value ts₂) ∧
      (∀ (i : Nat) (ps : List ℚ),
        fuzzify_variable value (insertAt i ("range", ps) ts) =
          fuzzify_variable value ts) := by
  intro value ts
  refine ⟨?_, ?_, ?_⟩
  · intro out hok p hp
    obtain ⟨hlen, hspec⟩ := fuzzifyTerms_ok_spec value
      (termLabels ts).length (termLabels ts) 0 out hok
    obtain ⟨j, hj⟩ := List.getElem?_of_mem hp
    obtain ⟨hjlt, -⟩ := List.getElem?_eq_some.mp hj
    have hjl : j < (termLabels ts).length := hlen ▸ hjlt
    have hq := List.getElem?_eq_getElem hjl
    have h := hspec j ((termLabels ts)[j]).1 ((termLabels ts)[j]).2
      (by rw [hq])
    have hout : ∃ d, out[j]? = some (((termLabels ts)[j]).1, d) := by
      rcases h.1 with h3 | h4
      · obtain ⟨_, _, _, d, _, _, ho⟩ := h.2.1 h3
        exact ⟨d, ho⟩
      · obtain ⟨_, _, _, _, d, _, _, ho⟩ := h.2.2 h4
        exact ⟨d, ho⟩
    obtain ⟨d, ho⟩ := hout
    rw [hj] at ho
    injection ho with ho
    have hqmem : (termLabels ts)[j] ∈ termLabels ts :=
      List.getElem_mem hjl
    simp only [termLabels, List.mem_filter] at hqmem
    intro hcontra
    rw [ho] at hcontra
    simp only [termLabels] at hcontra
    have hner := hqmem.2
    rw [hcontra] at hner
    simp at hner
  · intro ts₂ h
    unfold fuzzify_variable
    rw [h]
  · intro i ps
    unfold fuzzify_variable
    rw [termLabels_insertAt ps ts i]

/-- Witness for C9: inserting a "range" entry in front of a one-term
variable changes nothing, and the returned key is not "range". -/
theorem C9_witness :
    ("a", (1 : ℚ)).1 ≠ "range" ∧
    fuzzify_variable 1 (insertAt 0 ("range", [0, 2]) [("a", [0, 1, 2])]) =
      fuzzify_variable 1 [("a", [0, 1, 2])] :=
  ⟨(C9_range_key_excluded 1 [("a", [0, 1, 2])]).1 [("a", 1)] (by decide)
      ("a", 1) (by decide),
   (C9_range_key_excluded 1 [("a", [0, 1, 2])]).2.2 0 [0, 2]⟩

/-! ### Fold lemmas for the rule-engine aggregation model -/

lemma le_foldrMax (l : List ℚ) (b : ℚ) : ∀ x ∈ l, x ≤ l.foldr max b := by
  induction l with
  | nil => intro x hx; simp at hx
  | cons a l ih =>
    intro x hx
    rcases List.mem_cons.mp hx with h | h
    · subst h
      exact le_max_left _ _
    · exact le_trans (ih x h) (le_max_right _ _)

lemma foldrMax_mem (l : List ℚ) (b : ℚ) :
    l.foldr max b = b ∨ l.foldr max b ∈ l := by
  induction l with
  | nil => exact Or.inl rfl
  | cons a l ih =>
    simp only [List.foldr_cons]
    rcases le_total a (l.foldr max b) with h | h
    · rw [max_eq_right h]
      rcases ih with h' | h'
      · exact Or.inl h'
      · exact Or.inr (List.mem_cons_of_mem a h')
    · rw [max_eq_left h]
      exact Or.inr (List.mem_cons_self a l)

lemma foldrMin_le (l : List ℚ) (b : ℚ) : ∀ x ∈ l, l.foldr min b ≤ x := by
  induction l with
  | nil => intro x hx; simp at hx
  | cons a l ih =>
    intro x hx
    rcases List.mem_cons.mp hx with h | h
    · subst h
      exact min_le_left _ _
    · exact le_trans (min_le_right _ _) (ih x h)

lemma foldrMin_mem (l : List ℚ) (b : ℚ) :
    l.foldr min b = b ∨ l.foldr min b ∈ l := by
  induction l with
  | nil => exact Or.inl rfl
  | cons a l ih =>
    simp only [List.foldr_cons]
    rcases le_total (l.foldr min b) a with h | h
    · rw [min_eq_right h]
      rcases ih with h' | h'
      · exact Or.inl h'
      · exact Or.inr (List.mem_cons_of_mem a h')
    · rw [min_eq_left h]
      exact Or.inr (List.mem_cons_self a l)

/-- C7: rule firing strength behaves as the minimum of the antecedent
degrees (it is one of them and a lower bound of all of them), each output
term's aggregated activation is the maximum firing strength among the
rules concluding that term (an upper bound, attained unless it is the
empty default 0), and the activation map is invariant under permuting the
rule list. -/
theorem C7_min_max_aggregation :
    ∀ (readings : String → String → ℚ) (rules : List Rule) (t : String),
      (∀ r : Rule, (∀ q ∈ r.antecedents, readings q.1 q.2 ≤ 1) →
        r.antecedents ≠ [] →
        firingStrength readings r ∈
          r.antecedents.map (fun q => readings q.1 q.2) ∧
        ∀ q ∈ r.antecedents, firingStrength readings r ≤ readings q.1 q.2) ∧
      (∀ r ∈ rules, r.consequent = t →
        firingStrength readings r ≤ aggregateActivation readings rules t) ∧
      (aggregateActivation readings rules t = 0 ∨
        ∃ r ∈ rules, r.consequent = t ∧
          aggregateActivation readings rules t = firingStrength readings r) ∧
      (∀ rules₂, rules.Perm rules₂ →
        aggregateActivation readings rules t =
          aggregateActivation readings rules₂ t) := by
  intro readings rules t
  refine ⟨?_, ?_, ?_, ?_⟩
  · -- firing strength is the minimum of the antecedent degrees
    intro r hub hne
    obtain ⟨ants, conseq⟩ := r
    simp only [firingStrength] at hub hne ⊢
    rcases ants with _ | ⟨q, qs⟩
    · exact absurd rfl hne
    · constructor
      · rcases foldrMin_mem ((q :: qs).map fun q => readings q.1 q.2) 1
          with h | h
        · -- the fold hit the initial accumulator 1; then the head is 1
          have hmem : readings q.1 q.2 ∈
              ((q :: qs).map fun q => readings q.1 q.2) := by
            simp
          have hle := foldrMin_le ((q :: qs).map fun q => readings q.1 q.2)
            1 _ hmem
          have hub' := hub q (List.mem_cons_self q qs)
          rw [h] at hle
          have heq : readings q.1 q.2 = 1 := le_antisymm hub' hle
          rw [h, ← heq]
          exact hmem
        · exact h
      · intro q' hq'
        exact foldrMin_le _ 1 _ (List.mem_map_of_mem _ hq')
  · -- aggregated activation is an upper bound of matching firing strengths
    intro r hr hc
    exact le_foldrMax _ 0 _
      (List.mem_map_of_mem _ (List.mem_filter.mpr ⟨hr, by simp [hc]⟩))
  · -- and it is attained unless no matching rule exists (default 0)
    rcases foldrMax_mem ((rules.filter fun r => r.consequent = t).map
      (firingStrength readings)) 0 with h | h
    · exact Or.inl h
    · obtain ⟨r, hrmem, hrf⟩ := List.mem_map.mp h
      obtain ⟨hrl, hrc⟩ := List.mem_filter.mp hrmem
      exact Or.inr ⟨r, hrl, by simpa using hrc, hrf.symm⟩
  · -- order independence
    intro rules₂ hperm
    unfold aggregateActivation
    haveI : LeftCommutative (max : ℚ → ℚ → ℚ) :=
      ⟨fun a b c => max_left_comm a b c⟩
    exact ((hperm.filter _).map _).foldr_eq 0

/-- Witness for C7 at a concrete one-rule system. -/
theorem C7_witness :
    firingStrength (fun _ _ => 3/10) ⟨[("a", "x")], "t"⟩ ≤
      aggregateActivation (fun _ _ => 3/10) [⟨[("a", "x")], "t"⟩] "t" :=
  (C7_min_max_aggregation (fun _ _ => 3/10) [⟨[("a", "x")], "t"⟩]
    "t").2.1 ⟨[("a", "x")], "t"⟩ (by simp) rfl

example :
    firingStrength
      (fun _ t => if t = "p" then 3/10 else if t = "q" then 8/10 else 5/10)
      ⟨[("v", "p"), ("v", "q"), ("v", "r")], "out"⟩ = 3/10 := by
  simp [firingStrength]
  norm_num

example :
    aggregateActivation
      (fun _ t => if t = "p" then 2/10 else 6/10)
      [⟨[("v", "p")], "high_risk"⟩, ⟨[("v", "q")], "high_risk"⟩]
      "high_risk" = 6/10 := by
  simp [aggregateActivation, firingStrength]
  norm_num
